import Mathlib

/-!
Verification development for the pyradiotracer repository.

The geometry kernel (ratracer/utils.py), the plane shape (ratracer/shape.py)
and the mirror-reflection tracer (ratracer/tracer.py) are embedded as Lean
definitions over exact real arithmetic: a numpy 3-vector becomes `Vec3`, a
float becomes `ℝ`, the `numpy.inf` / `numpy.nan` sentinels become `Option`.
Scenes are association lists from shape ids to planes, matching the
insertion-ordered dict `{shape.id: shape for shape in scene}` with the
process-unique ids produced by `Shape._id_gen`.
-/

noncomputable section

open scoped Classical

/-- `TOLERANCE = 1e-6` from ratracer/utils.py. -/
def TOLERANCE : ℝ := 1 / 1000000

/-- `_SHADOWING_INDENT = .99999` from radiotracer/tracer.py. -/
def SHADOWING_INDENT : ℝ := 99999 / 100000

/-- A 3-component real vector, the embedding of `vec3d` (a numpy array of
three floats) from ratracer/utils.py. -/
@[ext] structure Vec3 where
  x : ℝ
  y : ℝ
  z : ℝ

instance : Add Vec3 := ⟨fun a b => ⟨a.x + b.x, a.y + b.y, a.z + b.z⟩⟩

instance : Sub Vec3 := ⟨fun a b => ⟨a.x - b.x, a.y - b.y, a.z - b.z⟩⟩

instance : SMul ℝ Vec3 := ⟨fun c v => ⟨c * v.x, c * v.y, c * v.z⟩⟩

/-- `zero = vec3d(0., 0., 0.)` from ratracer/utils.py. -/
def Vec3.zeroV : Vec3 := ⟨0, 0, 0⟩

instance : Zero Vec3 := ⟨Vec3.zeroV⟩

@[simp] theorem Vec3.add_x (a b : Vec3) : (a + b).x = a.x + b.x := rfl
@[simp] theorem Vec3.add_y (a b : Vec3) : (a + b).y = a.y + b.y := rfl
@[simp] theorem Vec3.add_z (a b : Vec3) : (a + b).z = a.z + b.z := rfl
@[simp] theorem Vec3.sub_x (a b : Vec3) : (a - b).x = a.x - b.x := rfl
@[simp] theorem Vec3.sub_y (a b : Vec3) : (a - b).y = a.y - b.y := rfl
@[simp] theorem Vec3.sub_z (a b : Vec3) : (a - b).z = a.z - b.z := rfl
@[simp] theorem Vec3.smul_x (c : ℝ) (v : Vec3) : (c • v).x = c * v.x := rfl
@[simp] theorem Vec3.smul_y (c : ℝ) (v : Vec3) : (c • v).y = c * v.y := rfl
@[simp] theorem Vec3.smul_z (c : ℝ) (v : Vec3) : (c • v).z = c * v.z := rfl
@[simp] theorem Vec3.zero_x : (0 : Vec3).x = 0 := rfl
@[simp] theorem Vec3.zero_y : (0 : Vec3).y = 0 := rfl
@[simp] theorem Vec3.zero_z : (0 : Vec3).z = 0 := rfl

/-- `numpy.dot` on 3-vectors. -/
def Vec3.dot (a b : Vec3) : ℝ := a.x * b.x + a.y * b.y + a.z * b.z

/-- `norm` / `length` (Euclidean norm) from ratracer/utils.py. -/
def Vec3.norm (v : Vec3) : ℝ := Real.sqrt (v.dot v)

/-- Componentwise division of a vector by a scalar, the numpy `x / n`. -/
def Vec3.divS (v : Vec3) (c : ℝ) : Vec3 := ⟨v.x / c, v.y / c, v.z / c⟩

/-- `normalize(x): n = length(x); return x / n if n > tolerance else zero`
from ratracer/utils.py. -/
def Vec3.normalize (v : Vec3) : Vec3 :=
  if Vec3.norm v > TOLERANCE then v.divS (Vec3.norm v) else 0

/-- A plane, from ratracer/shape.py: an anchor point `_point` and the stored
normal `_normal`.  The fields hold whatever the construction stored; the
constructor `Plane.make` below performs the normalization done by
`Plane.__init__`. -/
structure Plane where
  point : Vec3
  normal : Vec3

/-- `Plane.__init__(init_point, normal)`: stores `init_point` and
`normalize(normal)`. -/
def Plane.make (init_point n : Vec3) : Plane := ⟨init_point, Vec3.normalize n⟩

/-- `Plane._distance_to(point)`: signed distance
`numpy.dot(point - self._point, self._normal)`. -/
def Plane.signedDistance (pl : Plane) (p : Vec3) : ℝ :=
  Vec3.dot (p - pl.point) pl.normal

/-- `Plane._intersection_fraction(start, direction)` from ratracer/shape.py.
The `numpy.inf` sentinel is `none`: returned when the direction is
near-parallel to the plane (`|denom| < TOLERANCE`) or the fraction is
non-positive. -/
def Plane.intersection_fraction (pl : Plane) (start direction : Vec3) :
    Option ℝ :=
  let denom := Vec3.dot direction pl.normal
  if |denom| < TOLERANCE then none
  else
    let tau := -(pl.signedDistance start) / denom
    if tau > 0 then some tau else none

/-- `Plane.is_shadowed(start, end)` from ratracer/shape.py:
`tau = _intersection_fraction(start, end - start); return tau >= 0 and
tau <= 1`.  The `inf` sentinel (`none`) fails `tau <= 1`, hence `False`. -/
def Plane.is_shadowed (pl : Plane) (start stop : Vec3) : Prop :=
  match pl.intersection_fraction start (stop - start) with
  | none => False
  | some tau => 0 ≤ tau ∧ tau ≤ 1

/-- `Plane.reflect(point)`:
`point - 2 * self._distance_to(point) * self._normal`. -/
def Plane.reflect (pl : Plane) (p : Vec3) : Vec3 :=
  p - (2 * pl.signedDistance p) • pl.normal

/-- `Plane.grazing_angle(direction)`:
`abs(dot(normalize(direction), normal))`. -/
def Plane.grazing_angle (pl : Plane) (direction : Vec3) : ℝ :=
  |Vec3.dot (Vec3.normalize direction) pl.normal|

/-- Modelled from the spec: the `(distance, incidenceCosine)` form of
`Plane.intersect(start, direction)` that `Tracer._i_compute_ray_path`
(ratracer/tracer.py line 181) unpacks as `length, aoa`, but which is absent
from shape.py (shape.py still carries the older point-returning
`intersect`).  Per spec section 4.2 it returns the positive distance given
by the source's `_intersection_fraction` together with the incidence cosine
`|dot(direction, normal)|` (the source's `grazing_angle` of an
already-normalized direction), or the no-intersection sentinel (`none`). -/
def Plane.intersectRay (pl : Plane) (start direction : Vec3) :
    Option (ℝ × ℝ) :=
  (pl.intersection_fraction start direction).map
    (fun tau => (tau, |Vec3.dot direction pl.normal|))

/-- Modelled from the spec: the per-shape shadow test
`shape.is_shadowing(start, delta)` that `Tracer.is_shadowed`
(ratracer/tracer.py line 206) invokes, but which is absent from shape.py.
Per spec section 4.2 and `Tracer.is_shadowed` of radiotracer/tracer.py
(lines 83-87) it pulls the far end inward by `_SHADOWING_INDENT` and then
applies the source's `is_shadowed` segment test. -/
def Plane.is_shadowing (pl : Plane) (start delta : Vec3) : Prop :=
  pl.is_shadowed start (start + SHADOWING_INDENT • delta)

/-- One in-progress or saved path of `Tracer.Result`: the 4-tuple of lists
`([directions], [lengths], [shape ids], [aoa cosines])` that the source
stores as `self._temp` and as entries of `self.trace`
(ratracer/tracer.py, `DIR_CODE`/`LEN_CODE`/`SID_CODE`/`AOA_CODE`). -/
structure PathData where
  dirs : List Vec3
  lens : List ℝ
  sids : List ℕ
  aoas : List ℝ

/-- The fresh 4-tuple `([], [], [], [])`. -/
def emptyPath : PathData := ⟨[], [], [], []⟩

/-- `Tracer.Result` from ratracer/tracer.py: saved paths `trace`, the path
under construction `_temp`, and the query endpoints (`None` before the
first `refresh`, hence `Option`).  The Python attribute `end` is called
`stop` here (`end` is a Lean keyword). -/
structure Result where
  trace : List PathData
  temp : PathData
  start : Option Vec3
  stop : Option Vec3

/-- `Result.__init__`: empty trace, fresh temp, `start = end = None`. -/
def Result.init : Result := ⟨[], emptyPath, none, none⟩

/-- `Result.append(direction, length, sid, aoa)`: appends one value to each
of the four temp lists (`zip` pairs all four). -/
def Result.append (r : Result) (d : Vec3) (l : ℝ) (sid : ℕ) (aoa : ℝ) :
    Result :=
  { r with temp := ⟨r.temp.dirs ++ [d], r.temp.lens ++ [l],
                    r.temp.sids ++ [sid], r.temp.aoas ++ [aoa]⟩ }

/-- `Result.append(direction, length)` as invoked by `append_last` with only
two values: `zip` stops after the direction and length lists. -/
def Result.append2 (r : Result) (d : Vec3) (l : ℝ) : Result :=
  { r with temp := ⟨r.temp.dirs ++ [d], r.temp.lens ++ [l],
                    r.temp.sids, r.temp.aoas⟩ }

/-- `Result.clear()`: reset the in-progress path. -/
def Result.clear (r : Result) : Result := { r with temp := emptyPath }

/-- `Result.save()`: `if self._temp[0]: self.trace.append(self._temp);
self.clear()` — retain the in-progress path only when its direction list is
non-empty (Python truthiness of `_temp[0]`). -/
def Result.save (r : Result) : Result :=
  match r.temp.dirs with
  | [] => r
  | _ :: _ => ⟨r.trace ++ [r.temp], emptyPath, r.start, r.stop⟩

/-- `Result.append_last(direction, length)`: two-value append then save. -/
def Result.append_last (r : Result) (d : Vec3) (l : ℝ) : Result :=
  (r.append2 d l).save

/-- `Result.refresh(start, end)`: `trace.clear(); clear(); start = start;
end = end` — every field is overwritten, so the prior accumulator state is
discarded entirely. -/
def Result.refresh (_r : Result) (s e : Vec3) : Result :=
  ⟨[], emptyPath, some s, some e⟩

/-- `Result.path_len(idx)`: `len(self.trace[idx][0])`. -/
def Result.path_len (r : Result) (idx : ℕ) : ℕ :=
  ((r.trace.getD idx emptyPath).dirs).length

/-- The loop of `Result.path`: `breaks = [start]; for i: breaks.append(
breaks[i] + direction[i] * length[i])`. -/
def buildBreaks (s : Vec3) : List (Vec3 × ℝ) → List Vec3
  | [] => [s]
  | (d, l) :: rest => s :: buildBreaks (s + l • d) rest

/-- `Result.path(idx)`: the absolute breakpoints of the `idx`-th saved path,
integrated from `self.start`. -/
def Result.path (r : Result) (idx : ℕ) : List Vec3 :=
  let p := r.trace.getD idx emptyPath
  buildBreaks (r.start.getD 0) (p.dirs.zip p.lens)

/-- `itertools.product(iterables, repeat=k)` over a list of ids, in the
same lexicographic order (leftmost position varies slowest). -/
def productRepeat (xs : List ℕ) : ℕ → List (List ℕ)
  | 0 => [[]]
  | Nat.succ k =>
      xs.flatMap (fun a => (productRepeat xs k).map (fun t => a :: t))

/-- `has_no_equal_consecutives` from ratracer/utils.py: no two adjacent
elements are equal. -/
def has_no_equal_consecutives : List ℕ → Bool
  | a :: b :: rest => (a != b) && has_no_equal_consecutives (b :: rest)
  | _ => true

/-- `product_no_consecutives(iterables, repeat)` from ratracer/utils.py:
the filtered Cartesian power. -/
def product_no_consecutives (xs : List ℕ) (k : ℕ) : List (List ℕ) :=
  (productRepeat xs k).filter has_no_equal_consecutives

/-- The tracer: `self.scene = {shape.id: shape for shape in scene}`,
embedded as the insertion-ordered association list of (id, plane) pairs
(ids are process-unique by `Shape._id_gen`, so keys are distinct and dict
iteration order is the list order). -/
structure Tracer where
  scene : List (ℕ × Plane)

/-- Iterating the scene dict yields its keys (the shape ids). -/
def Tracer.sids (tr : Tracer) : List ℕ := tr.scene.map Prod.fst

/-- `self.scene[sid]` (total here: lookup of a present key; the default is
never reached for ids drawn from the scene). -/
def Tracer.getPlane (tr : Tracer) (sid : ℕ) : Plane :=
  (((tr.scene.find? (fun q => q.1 == sid)).map Prod.snd).getD
    ⟨Vec3.zeroV, Vec3.zeroV⟩)

/-- `Tracer.is_shadowed(start, delta)`: `any(shape.is_shadowing(start,
delta) for shape in self.scene.values())`. -/
def Tracer.is_shadowed (tr : Tracer) (start delta : Vec3) : Prop :=
  ∃ q ∈ tr.scene, Plane.is_shadowing q.2 start delta

/-- `Tracer._i_compute_images(point, sid_sequence)`: successively mirror
the endpoint through the shapes of the sequence; the source seeds the list
with `point` itself and returns `images[1:]`, i.e. exactly the mirrored
images. -/
def Tracer.computeImages (tr : Tracer) (p : Vec3) : List ℕ → List Vec3
  | [] => []
  | sid :: rest =>
      let img := (tr.getPlane sid).reflect p
      img :: tr.computeImages img rest

/-- The loop of `Tracer._i_compute_ray_path`, walking the candidate pairs
`(sid, image)` in iteration order (`reversed_enumerate`), followed by the
terminal segment toward the true endpoint `stop`.  A `none` intersection or
a shadowed segment clears the in-progress path and leaves the trace
unchanged; full success appends the final segment and saves the path. -/
def Tracer.rayWalk (tr : Tracer) (stop : Vec3) :
    Vec3 → List (ℕ × Vec3) → Result → Result
  | start, (sid, img) :: rest, res =>
      let direction := Vec3.normalize (img - start)
      match (tr.getPlane sid).intersectRay start direction with
      | none => res.clear
      | some (length, aoa) =>
          let delta := length • direction
          if tr.is_shadowed start delta then res.clear
          else tr.rayWalk stop (start + delta) rest
                 (res.append direction length sid aoa)
  | start, [], res =>
      let delta := stop - start
      let length := Vec3.norm delta
      let direction := delta.divS length
      if tr.is_shadowed start delta then res.clear
      else res.append_last direction length

/-- `Tracer._i_compute_ray_path(start, end, images, sid_sequence)`: the
source iterates `reversed_enumerate(sid_sequence)` using `images[i]`, which
is exactly the reversed zip of the sequence with its image list. -/
def Tracer.i_compute_ray_path (tr : Tracer) (start stop : Vec3)
    (images : List Vec3) (seq : List ℕ) (res : Result) : Result :=
  tr.rayWalk stop start ((seq.zip images).reverse) res

/-- `Tracer._trace_path(start, end, sid_sequence)` (the verbose print
routines are pure side channels and are omitted). -/
def Tracer.trace_path (tr : Tracer) (start stop : Vec3) (seq : List ℕ)
    (res : Result) : Result :=
  tr.i_compute_ray_path start stop (tr.computeImages stop seq) seq res

/-- `Tracer.__call__(start, end, max_reflections)`: refresh the accumulator,
then for `k in range(max_reflections + 1)` trace every candidate id
sequence of `product_no_consecutives(self.scene, repeat=k)`.  The bound is
an integer as in Python; `range` of a non-positive argument is empty. -/
def Tracer.call (tr : Tracer) (start stop : Vec3) (max_reflections : ℤ)
    (res : Result) : Result :=
  (List.range (max_reflections + 1).toNat).foldl
    (fun r k =>
      (product_no_consecutives tr.sids k).foldl
        (fun r2 seq => tr.trace_path start stop seq r2) r)
    (res.refresh start stop)

/-- The operations a client can perform on a `Tracer.Result` accumulator. -/
inductive ResultOp where
  | refresh (s e : Vec3)
  | clear
  | save
  | append (d : Vec3) (l : ℝ) (sid : ℕ) (aoa : ℝ)
  | append_last (d : Vec3) (l : ℝ)

/-- Apply one accumulator operation. -/
def ResultOp.apply (r : Result) : ResultOp → Result
  | refresh s e => r.refresh s e
  | clear => r.clear
  | save => r.save
  | append d l sid aoa => r.append d l sid aoa
  | append_last d l => r.append_last d l

/-- Apply a sequence of accumulator operations in order. -/
def applyOps (r : Result) (ops : List ResultOp) : Result :=
  ops.foldl ResultOp.apply r

/-! ## The candidate enumeration -/

theorem mem_productRepeat (xs : List ℕ) :
    ∀ (k : ℕ) (l : List ℕ),
      l ∈ productRepeat xs k ↔ l.length = k ∧ ∀ a ∈ l, a ∈ xs
  | 0, l => by
      simp [productRepeat, List.length_eq_zero]
      rintro rfl
      simp
  | Nat.succ k, l => by
      simp only [productRepeat, List.mem_flatMap, List.mem_map]
      constructor
      · rintro ⟨a, ha, t, ht, rfl⟩
        obtain ⟨hlen, hsub⟩ := (mem_productRepeat xs k t).mp ht
        refine ⟨by simp [hlen], ?_⟩
        intro b hb
        rcases List.mem_cons.mp hb with rfl | hb
        · exact ha
        · exact hsub b hb
      · rintro ⟨hlen, hsub⟩
        cases l with
        | nil => simp at hlen
        | cons a t =>
            refine ⟨a, hsub a (by simp), t, ?_, rfl⟩
            refine (mem_productRepeat xs k t).mpr ⟨by simpa using hlen, ?_⟩
            intro b hb
            exact hsub b (List.mem_cons_of_mem _ hb)

theorem has_no_equal_consecutives_iff :
    ∀ l : List ℕ,
      has_no_equal_consecutives l = true ↔ l.Chain' (fun a b => a ≠ b)
  | [] => by simp [has_no_equal_consecutives]
  | [a] => by simp [has_no_equal_consecutives]
  | a :: b :: rest => by
      show ((a != b) && has_no_equal_consecutives (b :: rest)) = true ↔ _
      rw [List.chain'_cons, Bool.and_eq_true, bne_iff_ne,
          has_no_equal_consecutives_iff (b :: rest)]

theorem productRepeat_nodup (xs : List ℕ) (h : xs.Nodup) :
    ∀ k : ℕ, (productRepeat xs k).Nodup
  | 0 => by simp [productRepeat]
  | Nat.succ k => by
      show (xs.flatMap fun a => (productRepeat xs k).map (a :: ·)).Nodup
      refine List.nodup_flatMap.mpr ⟨?_, ?_⟩
      · intro a _
        exact (productRepeat_nodup xs h k).map List.cons_injective
      · refine h.imp ?_
        intro a b hab l hla hlb
        simp only [List.mem_map] at hla hlb
        obtain ⟨t, _, rfl⟩ := hla
        obtain ⟨t2, _, heq⟩ := hlb
        injection heq with h1 _
        exact hab h1.symm

/-- C3: for each k, `product_no_consecutives` yields exactly the ordered
k-tuples over the id list in which no two adjacent positions are equal
(each exactly once when the ids are distinct); for k = 0 it yields exactly
the single empty tuple. -/
theorem C3_enumeration_exact (xs : List ℕ) (k : ℕ) (l : List ℕ) :
    (l ∈ product_no_consecutives xs k ↔
       l.length = k ∧ (∀ a ∈ l, a ∈ xs) ∧ l.Chain' (fun a b => a ≠ b)) ∧
    (xs.Nodup → (product_no_consecutives xs k).Nodup) ∧
    product_no_consecutives xs 0 = [[]] := by
  refine ⟨?_, ?_, rfl⟩
  · rw [product_no_consecutives, List.mem_filter, mem_productRepeat,
        has_no_equal_consecutives_iff]
    tauto
  · intro h
    exact (productRepeat_nodup xs h k).filter _

/-- C3 witness: the theorem applied to the concrete id list [1, 2] and
k = 2, discharging the distinctness hypothesis there. -/
theorem C3_witness :
    ([1, 2] : List ℕ).Nodup ∧ (product_no_consecutives [1, 2] 2).Nodup :=
  ⟨by decide, (C3_enumeration_exact [1, 2] 2 []).2.1 (by decide)⟩

/-! ## Geometry kernel facts -/

theorem Vec3.dot_nonneg (v : Vec3) : 0 ≤ Vec3.dot v v := by
  unfold Vec3.dot
  nlinarith [mul_self_nonneg v.x, mul_self_nonneg v.y, mul_self_nonneg v.z]

theorem Vec3.norm_sq (v : Vec3) : Vec3.norm v ^ 2 = Vec3.dot v v :=
  Real.sq_sqrt (Vec3.dot_nonneg v)

theorem Vec3.dot_self_eq_zero (v : Vec3) : Vec3.dot v v = 0 ↔ v = 0 := by
  constructor
  · intro h
    unfold Vec3.dot at h
    have hx : v.x = 0 := mul_self_eq_zero.mp (le_antisymm
      (by nlinarith [mul_self_nonneg v.y, mul_self_nonneg v.z])
      (mul_self_nonneg v.x))
    have hy : v.y = 0 := mul_self_eq_zero.mp (le_antisymm
      (by nlinarith [mul_self_nonneg v.x, mul_self_nonneg v.z])
      (mul_self_nonneg v.y))
    have hz : v.z = 0 := mul_self_eq_zero.mp (le_antisymm
      (by nlinarith [mul_self_nonneg v.x, mul_self_nonneg v.y])
      (mul_self_nonneg v.z))
    ext <;> simp [hx, hy, hz]
  · rintro rfl
    simp [Vec3.dot]

theorem Vec3.norm_eq_zero_iff (v : Vec3) : Vec3.norm v = 0 ↔ v = 0 := by
  constructor
  · intro h
    exact (Vec3.dot_self_eq_zero v).mp
      (le_antisymm (Real.sqrt_eq_zero'.mp h) (Vec3.dot_nonneg v))
  · rintro rfl
    simp [Vec3.norm, Vec3.dot]

/-- `length * (delta / length) = delta`: the terminal segment of the forward
walk stores a unit direction and a length whose product recovers the
original displacement. -/
theorem smul_divS_norm (v : Vec3) :
    Vec3.norm v • Vec3.divS v (Vec3.norm v) = v := by
  rcases eq_or_ne (Vec3.norm v) 0 with h | h
  · rw [(Vec3.norm_eq_zero_iff v).mp h]
    ext <;> simp [Vec3.divS, Vec3.norm, Vec3.dot]
  · ext
    all_goals simp only [Vec3.smul_x, Vec3.smul_y, Vec3.smul_z, Vec3.divS]
    all_goals field_simp

/-! ## C5: mirroring is an involution -/

/-- C5: for every plane whose stored normal is unit length (the
construction-time invariant) and every point, reflecting twice returns the
point. -/
theorem C5_mirror_involution (pl : Plane) (x : Vec3)
    (h : Vec3.norm pl.normal = 1) : pl.reflect (pl.reflect x) = x := by
  have hnn : Vec3.dot pl.normal pl.normal = 1 := by
    have h2 := Vec3.norm_sq pl.normal
    rw [h] at h2
    linarith
  unfold Vec3.dot at hnn
  refine Vec3.ext ?_ ?_ ?_ <;>
    simp only [Plane.reflect, Plane.signedDistance, Vec3.dot, Vec3.sub_x,
      Vec3.sub_y, Vec3.sub_z, Vec3.smul_x, Vec3.smul_y, Vec3.smul_z]
  · linear_combination (4 * ((x.x - pl.point.x) * pl.normal.x +
      (x.y - pl.point.y) * pl.normal.y +
      (x.z - pl.point.z) * pl.normal.z) * pl.normal.x) * hnn
  · linear_combination (4 * ((x.x - pl.point.x) * pl.normal.x +
      (x.y - pl.point.y) * pl.normal.y +
      (x.z - pl.point.z) * pl.normal.z) * pl.normal.y) * hnn
  · linear_combination (4 * ((x.x - pl.point.x) * pl.normal.x +
      (x.y - pl.point.y) * pl.normal.y +
      (x.z - pl.point.z) * pl.normal.z) * pl.normal.z) * hnn

/-- C5 witness: the plane through the origin with normal (0,0,1) (unit
length) and the point (1,2,3). -/
theorem C5_witness :
    Vec3.norm (⟨0, 0, 1⟩ : Vec3) = 1 ∧
    Plane.reflect ⟨⟨0, 0, 0⟩, ⟨0, 0, 1⟩⟩
      (Plane.reflect ⟨⟨0, 0, 0⟩, ⟨0, 0, 1⟩⟩ ⟨1, 2, 3⟩) = ⟨1, 2, 3⟩ := by
  have h : Vec3.norm (⟨0, 0, 1⟩ : Vec3) = 1 := by
    norm_num [Vec3.norm, Vec3.dot, Real.sqrt_one]
  exact ⟨h, C5_mirror_involution ⟨⟨0, 0, 0⟩, ⟨0, 0, 1⟩⟩ ⟨1, 2, 3⟩ h⟩

/-! ## C2: the intersection contract -/

/-- C2: for a unit direction, the pair-returning intersection gives a
positive distance and the incidence cosine, and returns the sentinel
exactly when the direction is near-parallel to the plane or the computed
fraction is non-positive. -/
theorem C2_intersect_contract (pl : Plane) (start direction : Vec3)
    (h : Vec3.norm direction = 1) :
    (∀ d c, pl.intersectRay start direction = some (d, c) →
        0 < d ∧ c = |Vec3.dot direction pl.normal|) ∧
    (pl.intersectRay start direction = none ↔
        |Vec3.dot direction pl.normal| < TOLERANCE ∨
        -(pl.signedDistance start) / Vec3.dot direction pl.normal ≤ 0) := by
  simp only [Plane.intersectRay, Plane.intersection_fraction]
  by_cases h1 : |Vec3.dot direction pl.normal| < TOLERANCE
  · rw [if_pos h1]
    refine ⟨by simp, by simp [h1]⟩
  · rw [if_neg h1]
    by_cases h2 :
        -(pl.signedDistance start) / Vec3.dot direction pl.normal > 0
    · rw [if_pos h2]
      refine ⟨?_, ?_⟩
      · intro d c heq
        simp only [Option.map_some'] at heq
        injection heq with heq2
        injection heq2 with hd hc
        exact ⟨hd ▸ h2, hc.symm⟩
      · simp only [Option.map_some']
        constructor
        · intro heq
          exact absurd heq (by simp)
        · rintro (hc | hc)
          · exact absurd hc h1
          · linarith
    · rw [if_neg h2]
      refine ⟨by simp, ?_⟩
      simp only [Option.map_none']
      exact ⟨fun _ => Or.inr (le_of_not_lt h2), fun _ => trivial⟩

/-- C2 witness: the plane z = 0 with unit normal (0,0,1), ray start
(0,0,-2), unit direction (0,0,1): the intersection is `some (2, 1)`. -/
theorem C2_witness :
    Vec3.norm (⟨0, 0, 1⟩ : Vec3) = 1 ∧
    (0 < (2 : ℝ) ∧
      (1 : ℝ) = |Vec3.dot ⟨0, 0, 1⟩ (Plane.mk ⟨0, 0, 0⟩ ⟨0, 0, 1⟩).normal|) := by
  have h : Vec3.norm (⟨0, 0, 1⟩ : Vec3) = 1 := by
    norm_num [Vec3.norm, Vec3.dot, Real.sqrt_one]
  have hsome : Plane.intersectRay ⟨⟨0, 0, 0⟩, ⟨0, 0, 1⟩⟩ ⟨0, 0, -2⟩ ⟨0, 0, 1⟩ =
      some (2, 1) := by
    norm_num [Plane.intersectRay, Plane.intersection_fraction,
      Plane.signedDistance, Vec3.dot, TOLERANCE]
  exact ⟨h,
    (C2_intersect_contract ⟨⟨0, 0, 0⟩, ⟨0, 0, 1⟩⟩ ⟨0, 0, -2⟩ ⟨0, 0, 1⟩ h).1
      2 1 hsome⟩

/-! ## C4: the shadow test boundary -/

theorem fraction_pos (pl : Plane) (start dir : Vec3) (tau : ℝ)
    (h : pl.intersection_fraction start dir = some tau) : 0 < tau := by
  simp only [Plane.intersection_fraction] at h
  split_ifs at h with h1 h2
  injection h with h3
  exact h3 ▸ h2

/-- C4 (amended): the per-plane shadow test holds iff the intersection
fraction along the indent-shortened displacement exists and lies in the
half-open interval (0, 1] — the source checks `tau >= 0 and tau <= 1` and
the fraction is positive whenever it is not the sentinel, so fraction
exactly 1 (the indented far endpoint itself) does count as shadowing. -/
theorem C4_amended_shadow_halfopen (pl : Plane) (start delta : Vec3) :
    pl.is_shadowing start delta ↔
      ∃ tau, pl.intersection_fraction start (SHADOWING_INDENT • delta) =
          some tau ∧ 0 < tau ∧ tau ≤ 1 := by
  unfold Plane.is_shadowing Plane.is_shadowed
  have harg : (start + SHADOWING_INDENT • delta) - start =
      SHADOWING_INDENT • delta := by
    ext <;> simp
  rw [harg]
  rcases hf : pl.intersection_fraction start (SHADOWING_INDENT • delta)
    with _ | tau
  · simp [hf]
  · have hpos := fraction_pos _ _ _ _ hf
    simp only [hf]
    constructor
    · rintro ⟨_, h1⟩
      exact ⟨tau, rfl, hpos, h1⟩
    · rintro ⟨tau2, heq, _, h1⟩
      injection heq with h2
      exact ⟨le_of_lt hpos, h2 ▸ h1⟩

/-- C4 counterexample: plane z = 0.99999 with normal (0,0,1), start at the
origin, displacement (0,0,1).  The fraction along the indented displacement
is exactly 1, which is not strictly inside (0,1), yet the shadow test
returns true — refuting the claimed strict-interval characterization. -/
theorem C4_counterexample :
    Plane.is_shadowing ⟨⟨0, 0, 99999 / 100000⟩, ⟨0, 0, 1⟩⟩ ⟨0, 0, 0⟩
      ⟨0, 0, 1⟩ ∧
    Plane.intersection_fraction ⟨⟨0, 0, 99999 / 100000⟩, ⟨0, 0, 1⟩⟩ ⟨0, 0, 0⟩
      (SHADOWING_INDENT • (⟨0, 0, 1⟩ : Vec3)) = some 1 ∧
    ¬ ∃ tau,
        Plane.intersection_fraction ⟨⟨0, 0, 99999 / 100000⟩, ⟨0, 0, 1⟩⟩
          ⟨0, 0, 0⟩ (SHADOWING_INDENT • (⟨0, 0, 1⟩ : Vec3)) = some tau ∧
        0 < tau ∧ tau < 1 := by
  have habs : |(99999 : ℝ) / 100000| = 99999 / 100000 :=
    abs_of_nonneg (by norm_num)
  have hf : Plane.intersection_fraction ⟨⟨0, 0, 99999 / 100000⟩, ⟨0, 0, 1⟩⟩
      ⟨0, 0, 0⟩ (SHADOWING_INDENT • (⟨0, 0, 1⟩ : Vec3)) = some 1 := by
    norm_num [Plane.intersection_fraction, Plane.signedDistance, Vec3.dot,
      SHADOWING_INDENT, TOLERANCE, habs]
  refine ⟨?_, hf, ?_⟩
  · unfold Plane.is_shadowing Plane.is_shadowed
    have harg : ((⟨0, 0, 0⟩ : Vec3) + SHADOWING_INDENT • (⟨0, 0, 1⟩ : Vec3)) -
        ⟨0, 0, 0⟩ = SHADOWING_INDENT • (⟨0, 0, 1⟩ : Vec3) := by
      ext <;> simp
    rw [harg, hf]
    norm_num
  · rintro ⟨tau, heq, _, h1⟩
    rw [hf] at heq
    injection heq with h2
    rw [← h2] at h1
    exact absurd h1 (lt_irrefl 1)

/-! ## C7: degenerate normals at construction -/

/-- C7 counterexample: constructing a plane with the zero normal succeeds
and silently stores the zero vector — a non-unit stored normal — instead
of failing. -/
theorem C7_counterexample :
    (Plane.make ⟨0, 0, 0⟩ ⟨0, 0, 0⟩).normal = Vec3.zeroV ∧
    Vec3.norm (Plane.make ⟨0, 0, 0⟩ ⟨0, 0, 0⟩).normal ≠ 1 := by
  have hz : Vec3.norm (⟨0, 0, 0⟩ : Vec3) = 0 := by
    simp [Vec3.norm, Vec3.dot]
  have hn : Vec3.normalize (⟨0, 0, 0⟩ : Vec3) = Vec3.zeroV := by
    unfold Vec3.normalize
    rw [hz, if_neg (by norm_num [TOLERANCE])]
    rfl
  refine ⟨hn, ?_⟩
  show Vec3.norm (Vec3.normalize ⟨0, 0, 0⟩) ≠ 1
  rw [hn]
  show Vec3.norm ⟨0, 0, 0⟩ ≠ 1
  rw [hz]
  norm_num

/-- C7 (amended): construction never fails; a degenerate input normal
(norm at most the tolerance) is silently mapped to the zero vector — not
to an arbitrary unit direction — while a non-degenerate input is stored
with unit norm. -/
theorem C7_amended_degenerate_silent (p v : Vec3) :
    (Vec3.norm v ≤ TOLERANCE → (Plane.make p v).normal = Vec3.zeroV) ∧
    (TOLERANCE < Vec3.norm v → Vec3.norm (Plane.make p v).normal = 1) := by
  constructor
  · intro h
    show Vec3.normalize v = Vec3.zeroV
    unfold Vec3.normalize
    rw [if_neg (not_lt.mpr h)]
    rfl
  · intro h
    show Vec3.norm (Vec3.normalize v) = 1
    unfold Vec3.normalize
    rw [if_pos h]
    set n := Vec3.norm v with hndef
    have hn0 : (0 : ℝ) < n := lt_trans (by norm_num [TOLERANCE]) h
    have hne : n ≠ 0 := ne_of_gt hn0
    have hd : Vec3.dot v v = n ^ 2 := (Vec3.norm_sq v).symm
    have hone : Vec3.dot (v.divS n) (v.divS n) = 1 := by
      unfold Vec3.dot Vec3.divS
      unfold Vec3.dot at hd
      field_simp
      linarith [hd]
    show Real.sqrt (Vec3.dot (v.divS n) (v.divS n)) = 1
    rw [hone, Real.sqrt_one]

/-- C7 witness: the amended theorem applied to the zero normal, whose norm
is below the tolerance. -/
theorem C7_witness :
    Vec3.norm (⟨0, 0, 0⟩ : Vec3) ≤ TOLERANCE ∧
    (Plane.make ⟨0, 0, 0⟩ ⟨0, 0, 0⟩).normal = Vec3.zeroV := by
  have h : Vec3.norm (⟨0, 0, 0⟩ : Vec3) ≤ TOLERANCE := by
    norm_num [Vec3.norm, Vec3.dot, TOLERANCE]
  exact ⟨h, (C7_amended_degenerate_silent ⟨0, 0, 0⟩ ⟨0, 0, 0⟩).1 h⟩

/-! ## The traced result of a zero-reflection query (C1) -/

theorem call_zero_eval (tr : Tracer) (s e : Vec3) (r : Result) :
    tr.call s e 0 r =
      if tr.is_shadowed s (e - s) then (Result.refresh r s e).clear
      else (Result.refresh r s e).append_last
             ((e - s).divS (Vec3.norm (e - s))) (Vec3.norm (e - s)) := rfl

/-- C1: with max_reflections = 0 the trace retains exactly one path — the
direct segment from start to end — unless that segment is shadowed by some
surface of the scene, in which case it retains none. -/
theorem C1_zero_reflections (tr : Tracer) (s e : Vec3) (r : Result) :
    (tr.is_shadowed s (e - s) → (tr.call s e 0 r).trace = []) ∧
    (¬ tr.is_shadowed s (e - s) →
      (tr.call s e 0 r).trace.length = 1 ∧
      (tr.call s e 0 r).path 0 = [s, e]) := by
  constructor
  · intro h
    rw [call_zero_eval, if_pos h]
    rfl
  · intro h
    rw [call_zero_eval, if_neg h]
    refine ⟨rfl, ?_⟩
    show [s, s + Vec3.norm (e - s) • Vec3.divS (e - s) (Vec3.norm (e - s))] =
      [s, e]
    rw [smul_divS_norm]
    have h2 : s + (e - s) = e := by
      ext <;> simp
    rw [h2]

/-- C1 witness: the empty scene with start (0,0,0) and end (0,10,0): the
direct segment is unshadowed and the trace holds exactly it. -/
theorem C1_witness :
    ¬ Tracer.is_shadowed ⟨[]⟩ ⟨0, 0, 0⟩ ((⟨0, 10, 0⟩ : Vec3) - ⟨0, 0, 0⟩) ∧
    ((Tracer.call ⟨[]⟩ ⟨0, 0, 0⟩ ⟨0, 10, 0⟩ 0 Result.init).trace.length = 1 ∧
      (Tracer.call ⟨[]⟩ ⟨0, 0, 0⟩ ⟨0, 10, 0⟩ 0 Result.init).path 0 =
        [⟨0, 0, 0⟩, ⟨0, 10, 0⟩]) := by
  have h : ¬ Tracer.is_shadowed ⟨[]⟩ ⟨0, 0, 0⟩
      ((⟨0, 10, 0⟩ : Vec3) - ⟨0, 0, 0⟩) := by
    simp [Tracer.is_shadowed]
  exact ⟨h,
    (C1_zero_reflections ⟨[]⟩ ⟨0, 0, 0⟩ ⟨0, 10, 0⟩ Result.init).2 h⟩

/-! ## Segment counts of retained paths (C6) -/

theorem append_last_trace (r : Result) (d : Vec3) (l : ℝ) :
    (r.append_last d l).trace = r.trace ++
      [⟨r.temp.dirs ++ [d], r.temp.lens ++ [l], r.temp.sids, r.temp.aoas⟩] := by
  unfold Result.append_last Result.append2 Result.save
  rcases hd : r.temp.dirs with _ | ⟨a, as⟩ <;> simp [hd]

theorem computeImages_length (tr : Tracer) :
    ∀ (seq : List ℕ) (p : Vec3), (tr.computeImages p seq).length = seq.length
  | [], _ => rfl
  | sid :: rest, p => by
      show ((tr.getPlane sid).reflect p :: _).length = _
      simp [computeImages_length tr rest]

theorem rayWalk_trace (tr : Tracer) (stop : Vec3) :
    ∀ (pairs : List (ℕ × Vec3)) (start : Vec3) (res : Result),
      (tr.rayWalk stop start pairs res).trace = res.trace ∨
      ∃ p, (tr.rayWalk stop start pairs res).trace = res.trace ++ [p] ∧
        p.dirs.length = res.temp.dirs.length + pairs.length + 1
  | [], start, res => by
      rw [show tr.rayWalk stop start [] res =
        (if tr.is_shadowed start (stop - start) then res.clear
         else res.append_last ((stop - start).divS (Vec3.norm (stop - start)))
           (Vec3.norm (stop - start))) from rfl]
      by_cases h : tr.is_shadowed start (stop - start)
      · rw [if_pos h]
        exact Or.inl rfl
      · rw [if_neg h]
        right
        refine ⟨_, append_last_trace res _ _, ?_⟩
        simp
  | (sid, img) :: rest, start, res => by
      simp only [Tracer.rayWalk]
      rcases hI : (tr.getPlane sid).intersectRay start
          (Vec3.normalize (img - start)) with _ | la
      · simp only [hI]
        exact Or.inl rfl
      · obtain ⟨len, aoa⟩ := la
        simp only [hI]
        by_cases h : tr.is_shadowed start (len • Vec3.normalize (img - start))
        · rw [if_pos h]
          exact Or.inl rfl
        · rw [if_neg h]
          rcases rayWalk_trace tr stop rest
              (start + len • Vec3.normalize (img - start))
              (res.append (Vec3.normalize (img - start)) len sid aoa)
            with hL | ⟨p, hp, hlen⟩
          · exact Or.inl hL
          · right
            refine ⟨p, hp, ?_⟩
            rw [hlen]
            simp [Result.append]
            omega

/-- C6: each candidate reflector sequence either adds no path (pruned by a
failed intersection or a shadow) or adds exactly one path whose recorded
segment count is the sequence length plus one: one segment per reflector
plus the terminal segment toward the receiver. -/
theorem C6_segment_count (tr : Tracer) (s e : Vec3) (seq : List ℕ)
    (res : Result) (h : res.temp = emptyPath) :
    (tr.trace_path s e seq res).trace = res.trace ∨
    ∃ p, (tr.trace_path s e seq res).trace = res.trace ++ [p] ∧
      p.dirs.length = seq.length + 1 := by
  have hpairs : ((seq.zip (tr.computeImages e seq)).reverse).length =
      seq.length := by
    simp [computeImages_length]
  rcases rayWalk_trace tr e ((seq.zip (tr.computeImages e seq)).reverse) s res
    with hL | ⟨p, hp, hplen⟩
  · exact Or.inl hL
  · right
    refine ⟨p, hp, ?_⟩
    rw [hplen, h, hpairs]
    simp [emptyPath]

/-- C6 witness: the empty candidate sequence on the empty scene retains the
direct path with exactly one segment. -/
theorem C6_witness :
    Result.init.temp = emptyPath ∧
    ((Tracer.trace_path ⟨[]⟩ ⟨0, 0, 0⟩ ⟨0, 10, 0⟩ [] Result.init).trace =
        Result.init.trace ∨
      ∃ p,
        (Tracer.trace_path ⟨[]⟩ ⟨0, 0, 0⟩ ⟨0, 10, 0⟩ [] Result.init).trace =
          Result.init.trace ++ [p] ∧
        p.dirs.length = ([] : List ℕ).length + 1) :=
  ⟨rfl, C6_segment_count ⟨[]⟩ ⟨0, 0, 0⟩ ⟨0, 10, 0⟩ [] Result.init rfl⟩

/-! ## Negative reflection bounds (C8) -/

/-- C8 counterexample: the claim says a negative bound is rejected as a
fatal error before enumeration; in fact `range(max_reflections + 1)` is
empty for bound −1 and the call silently returns a normal result — the
refreshed accumulator holding zero paths. -/
theorem C8_counterexample :
    Tracer.call ⟨[]⟩ ⟨0, 0, 0⟩ ⟨0, 10, 0⟩ (-1) Result.init =
      ⟨[], emptyPath, some ⟨0, 0, 0⟩, some ⟨0, 10, 0⟩⟩ := rfl

/-- C8 (amended): for every scene, endpoints, and negative bound, the
query is not rejected: the k-loop is empty and the tracer silently
returns the refreshed accumulator containing zero paths. -/
theorem C8_amended_negative_silent (tr : Tracer) (s e : Vec3) (n : ℤ)
    (r : Result) (h : n < 0) : tr.call s e n r = r.refresh s e := by
  unfold Tracer.call
  rw [Int.toNat_of_nonpos (by omega)]
  rfl

/-- C8 witness: the amended theorem at bound −1 on the empty scene. -/
theorem C8_witness :
    (-1 : ℤ) < 0 ∧
    Tracer.call ⟨[]⟩ ⟨0, 0, 0⟩ ⟨0, 10, 0⟩ (-1) Result.init =
      Result.refresh Result.init ⟨0, 0, 0⟩ ⟨0, 10, 0⟩ :=
  ⟨by norm_num, C8_amended_negative_silent ⟨[]⟩ ⟨0, 0, 0⟩ ⟨0, 10, 0⟩ (-1)
    Result.init (by norm_num)⟩

/-! ## Determinism (C9) -/

/-- C9: tracing is a pure function of (scene, start, end, bound): the
result does not depend on the incoming accumulator state, which `refresh`
discards, so re-running the identical query — including feeding the first
result back in as the accumulator — yields the identical result. -/
theorem C9_determinism (tr : Tracer) (s e : Vec3) (n : ℤ) (r1 r2 : Result) :
    tr.call s e n r1 = tr.call s e n r2 ∧
    tr.call s e n (tr.call s e n r1) = tr.call s e n r1 :=
  ⟨rfl, rfl⟩

/-! ## The accumulator invariant (C10) -/

theorem trace_nonempty_step (r : Result)
    (h : ∀ p ∈ r.trace, p.dirs ≠ []) (op : ResultOp) :
    ∀ p ∈ (ResultOp.apply r op).trace, p.dirs ≠ [] := by
  cases op with
  | refresh s e =>
      intro p hp
      simp [ResultOp.apply, Result.refresh] at hp
  | clear => exact h
  | save =>
      intro p hp
      unfold ResultOp.apply Result.save at hp
      rcases hd : r.temp.dirs with _ | ⟨a, as⟩
      · simp only [hd] at hp
        exact h p hp
      · simp only [hd] at hp
        rcases List.mem_append.mp hp with h1 | h1
        · exact h p h1
        · have hpe : p = r.temp := by simpa using h1
          rw [hpe, hd]
          simp
  | append d l sid aoa =>
      intro p hp
      exact h p hp
  | append_last d l =>
      intro p hp
      unfold ResultOp.apply at hp
      rw [append_last_trace] at hp
      rcases List.mem_append.mp hp with h1 | h1
      · exact h p h1
      · have hpe : p = ⟨r.temp.dirs ++ [d], r.temp.lens ++ [l],
            r.temp.sids, r.temp.aoas⟩ := by simpa using h1
        rw [hpe]
        simp

/-- C10: after any sequence of refresh / append / append_last / clear /
save operations on a freshly constructed accumulator, every retained path
is non-empty — `save` is a no-op when no segment has been appended. -/
theorem C10_retained_nonempty (ops : List ResultOp) :
    ∀ p ∈ (applyOps Result.init ops).trace, p.dirs ≠ [] := by
  have key : ∀ (l : List ResultOp) (r : Result),
      (∀ p ∈ r.trace, p.dirs ≠ []) →
      ∀ p ∈ (applyOps r l).trace, p.dirs ≠ [] := by
    intro l
    induction l with
    | nil => intro r h; exact h
    | cons op rest ih =>
        intro r h
        exact ih (ResultOp.apply r op) (trace_nonempty_step r h op)
  exact key ops Result.init (by intro p hp; simp [Result.init] at hp)

/-- C10 witness: one `append_last` retains exactly one path, and the
theorem certifies it is non-empty. -/
theorem C10_witness :
    (⟨[⟨0, 0, 1⟩], [10], [], []⟩ : PathData) ∈
      (applyOps Result.init [ResultOp.append_last ⟨0, 0, 1⟩ 10]).trace ∧
    (⟨[⟨0, 0, 1⟩], [10], [], []⟩ : PathData).dirs ≠ [] := by
  have hm : (⟨[⟨0, 0, 1⟩], [10], [], []⟩ : PathData) ∈
      (applyOps Result.init [ResultOp.append_last ⟨0, 0, 1⟩ 10]).trace := by
    show (⟨[⟨0, 0, 1⟩], [10], [], []⟩ : PathData) ∈
      [(⟨[⟨0, 0, 1⟩], [10], [], []⟩ : PathData)]
    exact List.mem_singleton_self _
  exact ⟨hm,
    C10_retained_nonempty [ResultOp.append_last ⟨0, 0, 1⟩ 10] _ hm⟩

end
